import Mathlib

/-!
Shallow embedding of the `nserve` hook package (`hook.go`) and of the
dispatch engine its specification describes.

Pointers to `Hook` values are modelled as addresses (`Nat`) into an
explicit heap; the package-global `hookCounter` (a Go `int32` bumped with
`atomic.AddInt32`, hence wrapping modulo `2 ^ 32`) is carried in a `World`
record together with the heap.  Errors are an arbitrary type `ε`
(`nil` = `none`); the per-hook mutex has no observable content in a
sequential model and is omitted.
-/

namespace Nserve

/-- The source's `hookOrder` is a string type. -/
abbrev hookOrder := String

/-- Constant `ForwardOrder` from `hook.go`: the string `"forward"`. -/
def ForwardOrder : hookOrder := "forward"

/-- Constant `ReverseOrder` exactly as declared in `hook.go` line 21: it is
assigned the string `"forward"` (the same value as `ForwardOrder`), even
though its doc comment says items are invoked opposite to registration
order. -/
def ReverseOrder : hookOrder := "forward"

/-- Signed 32-bit value of a counter that has been incremented `n` times
starting from zero, as produced by `atomic.AddInt32` (wraps modulo
`2 ^ 32`, values at or above `2 ^ 31` are negative). -/
def toInt32 (n : Nat) : Int :=
  if n % 2 ^ 32 < 2 ^ 31 then ((n % 2 ^ 32 : Nat) : Int)
  else ((n % 2 ^ 32 : Nat) : Int) - 2 ^ 32

/-- Identifier handed out by the `k`-th increment of `hookCounter`
(`k = 1` for the first hook ever allocated). -/
def idOfAlloc (k : Nat) : Int := toInt32 k

/-- The `Hook` struct of `hook.go`.  `InvokeOnError` holds `*Hook`
pointers, modelled as heap addresses; `Providers` holds the opaque
callback/provider entries, modelled as opaque tokens.  The `lock` field
has no observable content here and is omitted. -/
structure Hook (ε : Type) where
  Id : Int
  Name : String
  Order : hookOrder
  InvokeOnError : List Nat
  ContinuePast : Bool
  ErrorCombiner : Option (ε → ε → ε)
  Providers : List Nat

/-- Process state: the value of the global `hookCounter` (as a count of
increments performed) and the heap of allocated hooks (address = index). -/
structure World (ε : Type) where
  hookCounter : Nat
  heap : List (Hook ε)

/-- The state of a process in which no hook has been allocated yet. -/
def emptyWorld (ε : Type) : World ε := ⟨0, []⟩

/-- Dereference a hook pointer. -/
def hookAt (w : World ε) (a : Nat) : Option (Hook ε) := w.heap.get? a

/-- Mutate the hook object at address `a` in place (models a method that
writes through the receiver pointer). -/
def updateAt (w : World ε) (a : Nat) (f : Hook ε → Hook ε) : World ε :=
  match w.heap.get? a with
  | none => w
  | some h => ⟨w.hookCounter, w.heap.set a (f h)⟩

/-- `NewHook(name, order)` from `hook.go`: bump the counter, allocate a
hook whose `Id` is the incremented counter value and whose remaining
fields are Go zero values (empty lists, `false`, no combiner).  Returns
the new state and the address of the new hook. -/
def NewHook (w : World ε) (name : String) (order : hookOrder) :
    World ε × Nat :=
  let c := w.hookCounter + 1
  let h : Hook ε := ⟨idOfAlloc c, name, order, [], false, none, []⟩
  (⟨c, w.heap ++ [h]⟩, w.heap.length)

/-- `(*Hook).Copy` from `hook.go`: copy the struct, give the copy freshly
copied backing arrays for `InvokeOnError` and `Providers` (same entries),
and a newly drawn `Id`.  Returns the new state and the copy's address. -/
def Copy (w : World ε) (a : Nat) : World ε × Nat :=
  match w.heap.get? a with
  | none => (w, a)
  | some h =>
    let c := w.hookCounter + 1
    let hc : Hook ε := { h with Id := idOfAlloc c }
    (⟨c, w.heap ++ [hc]⟩, w.heap.length)

/-- `(*Hook).OnError` from `hook.go`: with `nil` clear `InvokeOnError`,
otherwise append the given hook pointer; return the receiver. -/
def OnError (w : World ε) (a : Nat) (e : Option Nat) : World ε × Nat :=
  (updateAt w a fun h =>
    match e with
    | none => { h with InvokeOnError := [] }
    | some t => { h with InvokeOnError := h.InvokeOnError ++ [t] }, a)

/-- `(*Hook).SetErrorCombiner` from `hook.go`: store the given combiner
(possibly `nil`), replacing any previous one; return the receiver. -/
def SetErrorCombiner (w : World ε) (a : Nat) (f : Option (ε → ε → ε)) :
    World ε × Nat :=
  (updateAt w a fun h => { h with ErrorCombiner := f }, a)

/-- `(*Hook).ContinuePastError` from `hook.go`: set the `ContinuePast`
flag; return the receiver. -/
def ContinuePastError (w : World ε) (a : Nat) (b : Bool) : World ε × Nat :=
  (updateAt w a fun h => { h with ContinuePast := b }, a)

/-- Modelled from the spec: registering a callback/provider on a hook
(the `Using` / registration code is not under `src/`) appends one opaque
entry to the hook's `Providers` list. -/
def Using (w : World ε) (a : Nat) (p : Nat) : World ε × Nat :=
  (updateAt w a fun h => { h with Providers := h.Providers ++ [p] }, a)

/-- The process state after the three package-level hooks of `hook.go`
are initialized, in Go initialization (dependency) order: `Shutdown`,
then `Stop = NewHook(..).OnError(Shutdown).ContinuePastError(true)`,
then `Start = NewHook(..).OnError(Stop)`. -/
def initWorld (ε : Type) : World ε :=
  let p1 := NewHook (emptyWorld ε) "shutdown" ReverseOrder
  let p2 := NewHook p1.1 "stop" ReverseOrder
  let p3 := OnError p2.1 p2.2 (some p1.2)
  let p4 := ContinuePastError p3.1 p3.2 true
  let p5 := NewHook p4.1 "start" ForwardOrder
  (OnError p5.1 p5.2 (some p4.2)).1

/-- Address of the predefined `Shutdown` hook in `initWorld`. -/
def ShutdownAddr : Nat := 0

/-- Address of the predefined `Stop` hook in `initWorld`. -/
def StopAddr : Nat := 1

/-- Address of the predefined `Start` hook in `initWorld`. -/
def StartAddr : Nat := 2

/-- Modelled from the spec: iteration order of the Dispatch Engine
(the `App`/`Do` code is not under `src/`).  Per the spec, when the
hook's order equals the `Reverse` policy the registration list is
iterated back-to-front, otherwise front-to-back.  The policy values
compared against are the constants of `hook.go`. -/
def dispatchOrder (o : hookOrder) (regs : List α) : List α :=
  if o = ReverseOrder then regs.reverse else regs

/-- Modelled from the spec: one step of the error accumulation of the
Dispatch Engine.  The first error is kept; a later error is folded in
with the installed combiner, or discarded when no combiner is
installed. -/
def accumulate (comb : Option (ε → ε → ε)) (acc : Option ε) (r : Option ε) :
    Option ε :=
  match acc, r with
  | none, _ => r
  | some e, none => some e
  | some e, some e2 =>
    match comb with
    | none => some e
    | some f => some (f e e2)

/-- Modelled from the spec: the dispatch loop.  Each registered callback
is a descriptor token paired with the optional error its resolved
invocation returns.  The loop invokes callbacks in the given iteration
order, accumulates errors with `accumulate`, and stops right after the
first error when the continue-past-error flag is off.  It returns the
descriptors actually invoked, in invocation order, and the accumulated
error. -/
def runCallbacks (cp : Bool) (comb : Option (ε → ε → ε)) :
    Option ε → List (Nat × Option ε) → List Nat × Option ε
  | acc, [] => ([], acc)
  | acc, (d, r) :: rest =>
    let acc2 := accumulate comb acc r
    if acc2.isSome && !cp then ([d], acc2)
    else
      let out := runCallbacks cp comb acc2 rest
      (d :: out.1, out.2)

/-- Modelled from the spec: one dispatch of the hook at address `a`
(steps 1 to 4 and 6 of the spec's dispatch algorithm; the cascade step
and the timeout variant are separate dispatches and are not modelled).
`regs` is the registration-order callback list fetched from the App. -/
def Do (w : World ε) (a : Nat) (regs : List (Nat × Option ε)) :
    List Nat × Option ε :=
  match hookAt w a with
  | none => ([], none)
  | some h => runCallbacks h.ContinuePast h.ErrorCombiner none
      (dispatchOrder h.Order regs)

/-- A process state holding one hook created with `ForwardOrder`
(address 0) and one created with `ReverseOrder` (address 1). -/
def twoOrderWorld : World Nat :=
  (NewHook (NewHook (emptyWorld Nat) "fwd" ForwardOrder).1
    "rev" ReverseOrder).1

/-- C1: refuted on the code.  `hook.go` assigns `ReverseOrder` the value
`"forward"`, identical to `ForwardOrder`, so a hook created with
`ReverseOrder` carries the same `Order` value as one created with
`ForwardOrder` and any dispatch that decides iteration order from
`Order` runs both hooks' callbacks in the same order, never in opposite
orders as the claim requires. -/
theorem C1_reverse_order_constant_bug :
    ReverseOrder = ForwardOrder ∧
    (Do twoOrderWorld 0 [(10, none), (11, none)]).1 =
      (Do twoOrderWorld 1 [(10, (none : Option Nat)), (11, none)]).1 :=
  ⟨rfl, rfl⟩

/-- C2: refuted on the code.  A hook created by `NewHook` with
`ReverseOrder` carries exactly the same ordering-policy value as one
created with `ForwardOrder`, because `hook.go` declares
`ReverseOrder = "forward"`. -/
theorem C2_order_constants_equal :
    (hookAt (NewHook (emptyWorld Nat) "x" ReverseOrder).1 0).map Hook.Order
      = (hookAt (NewHook (emptyWorld Nat) "x" ForwardOrder).1 0).map
          Hook.Order ∧
    ReverseOrder = ForwardOrder :=
  ⟨rfl, rfl⟩

/-- C4: at initialization, `Start` (address 2, id 3) has `ForwardOrder`
and cascade list `[Stop]`, `Stop` (address 1, id 2) has `ReverseOrder`,
cascade list `[Shutdown]` and continue-past-error `true`, `Shutdown`
(address 0, id 1) has `ReverseOrder` and an empty cascade list; `Start`
and `Shutdown` have continue-past-error `false` and none of the three
has a combiner installed. -/
theorem C4_predefined_hooks :
    hookAt (initWorld Nat) StartAddr =
      some ⟨idOfAlloc 3, "start", ForwardOrder, [StopAddr], false, none,
        []⟩ ∧
    hookAt (initWorld Nat) StopAddr =
      some ⟨idOfAlloc 2, "stop", ReverseOrder, [ShutdownAddr], true, none,
        []⟩ ∧
    hookAt (initWorld Nat) ShutdownAddr =
      some ⟨idOfAlloc 1, "shutdown", ReverseOrder, [], false, none, []⟩ :=
  ⟨rfl, rfl, rfl⟩

/-- Fold a list of callback outcomes into an already-accumulated error
using a combiner, skipping successful callbacks. -/
def foldErr (f : ε → ε → ε) : ε → List (Nat × Option ε) → ε
  | e, [] => e
  | e, (_, none) :: l => foldErr f e l
  | e, (_, some e2) :: l => foldErr f (f e e2) l

theorem Do_hookAt {w : World ε} {a : Nat} {h : Hook ε}
    (hh : hookAt w a = some h) (regs : List (Nat × Option ε)) :
    Do w a regs =
      runCallbacks h.ContinuePast h.ErrorCombiner none
        (dispatchOrder h.Order regs) := by
  unfold Do
  rw [hh]

theorem runCallbacks_noErrHead (cp : Bool) (comb : Option (ε → ε → ε))
    (d : Nat) (rest : List (Nat × Option ε)) :
    runCallbacks cp comb none ((d, none) :: rest) =
      (d :: (runCallbacks cp comb none rest).1,
        (runCallbacks cp comb none rest).2) := by
  simp [runCallbacks, accumulate]

theorem runCallbacks_noErrPre (cp : Bool) (comb : Option (ε → ε → ε))
    (pre rest : List (Nat × Option ε)) (hpre : ∀ p ∈ pre, p.2 = none) :
    runCallbacks cp comb none (pre ++ rest) =
      (pre.map Prod.fst ++ (runCallbacks cp comb none rest).1,
        (runCallbacks cp comb none rest).2) := by
  induction pre with
  | nil => simp
  | cons p pre ih =>
    obtain ⟨d, r⟩ := p
    have hr : r = none := hpre (d, r) (List.mem_cons_self _ _)
    subst hr
    rw [List.cons_append, runCallbacks_noErrHead,
      ih fun q hq => hpre q (List.mem_cons_of_mem _ hq)]
    simp

theorem runCallbacks_stop (comb : Option (ε → ε → ε)) (d : Nat) (e : ε)
    (post : List (Nat × Option ε)) :
    runCallbacks false comb none ((d, some e) :: post) = ([d], some e) := by
  simp [runCallbacks, accumulate]

theorem runCallbacks_errHead_cont (comb : Option (ε → ε → ε)) (d : Nat)
    (e : ε) (post : List (Nat × Option ε)) :
    runCallbacks true comb none ((d, some e) :: post) =
      (d :: (runCallbacks true comb (some e) post).1,
        (runCallbacks true comb (some e) post).2) := by
  simp [runCallbacks, accumulate]

theorem runCallbacks_contNoComb (e : ε) (l : List (Nat × Option ε)) :
    runCallbacks true none (some e) l = (l.map Prod.fst, some e) := by
  induction l with
  | nil => rfl
  | cons p l ih =>
    obtain ⟨d, r⟩ := p
    cases r <;> simp [runCallbacks, accumulate, ih]

theorem runCallbacks_contComb (f : ε → ε → ε) (e : ε)
    (l : List (Nat × Option ε)) :
    runCallbacks true (some f) (some e) l =
      (l.map Prod.fst, some (foldErr f e l)) := by
  induction l generalizing e with
  | nil => rfl
  | cons p l ih =>
    obtain ⟨d, r⟩ := p
    cases r <;> simp [runCallbacks, accumulate, foldErr, ih]

/-- C5: during one dispatch of a hook, with the iteration-order list
split as an error-free prefix, the first failing callback and the rest:
with continue-past-error off, iteration stops right after the first
error, later callbacks are not invoked, and `Do` returns that first
error; with the flag on and no combiner, every callback is still
invoked and the first error is retained, later ones discarded; with the
flag on and a combiner `f` installed, every callback is invoked and
each later error is folded in as `f accumulated newError`. -/
theorem C5_error_accumulation {ε : Type} (w : World ε) (a : Nat)
    (h : Hook ε) (regs pre post : List (Nat × Option ε)) (d : Nat) (e : ε)
    (hh : hookAt w a = some h)
    (hord : dispatchOrder h.Order regs = pre ++ (d, some e) :: post)
    (hpre : ∀ p ∈ pre, p.2 = none) :
    (h.ContinuePast = false →
      Do w a regs = (pre.map Prod.fst ++ [d], some e)) ∧
    (h.ContinuePast = true → h.ErrorCombiner = none →
      Do w a regs =
        (pre.map Prod.fst ++ d :: post.map Prod.fst, some e)) ∧
    (∀ f, h.ContinuePast = true → h.ErrorCombiner = some f →
      Do w a regs =
        (pre.map Prod.fst ++ d :: post.map Prod.fst,
          some (foldErr f e post))) := by
  rw [Do_hookAt hh regs, hord]
  refine ⟨fun hcp => ?_, fun hcp hcomb => ?_, fun f hcp hcomb => ?_⟩
  · rw [hcp, runCallbacks_noErrPre false h.ErrorCombiner pre _ hpre,
      runCallbacks_stop]
  · rw [hcp, hcomb, runCallbacks_noErrPre true none pre _ hpre,
      runCallbacks_errHead_cont, runCallbacks_contNoComb]
  · rw [hcp, hcomb, runCallbacks_noErrPre true (some f) pre _ hpre,
      runCallbacks_errHead_cont, runCallbacks_contComb]

/-- A combiner that adds two numeric error codes, used as a concrete
instance. -/
def c5Comb : Nat → Nat → Nat := fun x y => x + y

/-- A process state with a hook at address 0 (continue-past-error off,
no combiner) and a hook at address 1 (continue-past-error on, `c5Comb`
installed). -/
def c5World : World Nat :=
  let p1 := NewHook (emptyWorld Nat) "plain" ForwardOrder
  let p2 := NewHook p1.1 "combining" ForwardOrder
  let p3 := ContinuePastError p2.1 p2.2 true
  (SetErrorCombiner p3.1 p3.2 (some c5Comb)).1

/-- Witness for C5: on the abort-at-first-error hook the second (in
iteration order) of three callbacks fails with error 5, the third is
never invoked and `Do` returns error 5; on the continue-with-combiner
hook two callbacks fail with errors 3 and 2 (iteration order) and `Do`
returns their combination 5 after invoking every callback. -/
theorem C5_error_accumulation_witness :
    Do c5World 0 [(0, none), (1, some 5), (2, none)] = ([2, 1], some 5) ∧
    Do c5World 1 [(0, some 2), (1, some 3)] = ([1, 0], some 5) := by
  constructor
  · exact (C5_error_accumulation c5World 0
      ⟨idOfAlloc 1, "plain", ForwardOrder, [], false, none, []⟩
      [(0, none), (1, some 5), (2, none)] [(2, none)] [(0, none)] 1 5
      rfl rfl (by decide)).1 rfl
  · exact (C5_error_accumulation c5World 1
      ⟨idOfAlloc 2, "combining", ForwardOrder, [], true, some c5Comb, []⟩
      [(0, some 2), (1, some 3)] [] [(0, some 2)] 1 3
      rfl rfl (by decide)).2.2 c5Comb rfl rfl

theorem hookAt_lt_length {w : World ε} {a : Nat} {h : Hook ε}
    (hh : hookAt w a = some h) : a < w.heap.length := by
  rcases List.get?_eq_some.mp hh with ⟨hl, _⟩
  exact hl

theorem hookAt_updateAt_self {w : World ε} {a : Nat} {h : Hook ε}
    (hh : hookAt w a = some h) (f : Hook ε → Hook ε) :
    hookAt (updateAt w a f) a = some (f h) := by
  have hlt : a < w.heap.length := hookAt_lt_length hh
  have hh' : w.heap.get? a = some h := hh
  unfold updateAt
  rw [hh']
  exact List.get?_set_eq_of_lt _ hlt

theorem hookAt_updateAt_ne {w : World ε} {a b : Nat}
    (f : Hook ε → Hook ε) (hab : b ≠ a) :
    hookAt (updateAt w a f) b = hookAt w b := by
  unfold updateAt
  cases hw : w.heap.get? a with
  | none => rfl
  | some h => exact List.get?_set_ne _ _ fun hba => hab hba.symm

theorem NewHook_spec (w : World ε) (nm : String) (o : hookOrder) :
    (NewHook w nm o).1 =
      ⟨w.hookCounter + 1, w.heap ++
        [⟨idOfAlloc (w.hookCounter + 1), nm, o, [], false, none, []⟩]⟩ ∧
    (NewHook w nm o).2 = w.heap.length :=
  ⟨rfl, rfl⟩

theorem Copy_spec {w : World ε} {a : Nat} {h : Hook ε}
    (hh : hookAt w a = some h) :
    (Copy w a).1 = ⟨w.hookCounter + 1,
        w.heap ++ [{ h with Id := idOfAlloc (w.hookCounter + 1) }]⟩ ∧
    (Copy w a).2 = w.heap.length := by
  have hh' : w.heap.get? a = some h := hh
  unfold Copy
  rw [hh']
  exact ⟨rfl, rfl⟩

theorem hookAt_Copy_new {w : World ε} {a : Nat} {h : Hook ε}
    (hh : hookAt w a = some h) :
    hookAt (Copy w a).1 (Copy w a).2 =
      some { h with Id := idOfAlloc (w.hookCounter + 1) } := by
  rw [(Copy_spec hh).1, (Copy_spec hh).2]
  exact List.get?_concat_length _ _

theorem hookAt_Copy_old {w : World ε} {a : Nat} {h : Hook ε}
    (hh : hookAt w a = some h) {b : Nat} (hb : b < w.heap.length) :
    hookAt (Copy w a).1 b = hookAt w b := by
  rw [(Copy_spec hh).1]
  exact List.get?_append hb

/-- C7: for every hook, `OnError` with `nil` leaves the hook's cascade
list empty regardless of prior contents, and `OnError` with a non-nil
hook appends that hook to the end of the cascade list, leaving existing
entries in place; in both cases the call returns the receiver hook
itself. -/
theorem C7_onError_spec {ε : Type} (w : World ε) (a : Nat) (h : Hook ε)
    (hh : hookAt w a = some h) :
    ((OnError w a none).2 = a ∧
      hookAt (OnError w a none).1 a =
        some { h with InvokeOnError := [] }) ∧
    ∀ e, (OnError w a (some e)).2 = a ∧
      hookAt (OnError w a (some e)).1 a =
        some { h with InvokeOnError := h.InvokeOnError ++ [e] } := by
  refine ⟨⟨rfl, ?_⟩, fun e => ⟨rfl, ?_⟩⟩
  · exact hookAt_updateAt_self hh _
  · exact hookAt_updateAt_self hh _

/-- Witness for C7 on the predefined `Start` hook: `OnError nil` clears
its cascade list `[Stop]`, and `OnError Shutdown` appends `Shutdown`
after the existing `Stop` entry. -/
theorem C7_onError_spec_witness :
    hookAt (OnError (initWorld Nat) StartAddr none).1 StartAddr =
      some ⟨idOfAlloc 3, "start", ForwardOrder, [], false, none, []⟩ ∧
    hookAt (OnError (initWorld Nat) StartAddr (some ShutdownAddr)).1
        StartAddr =
      some ⟨idOfAlloc 3, "start", ForwardOrder, [StopAddr, ShutdownAddr],
        false, none, []⟩ :=
  ⟨(C7_onError_spec (initWorld Nat) StartAddr
      ⟨idOfAlloc 3, "start", ForwardOrder, [StopAddr], false, none, []⟩
      rfl).1.2,
    ((C7_onError_spec (initWorld Nat) StartAddr
      ⟨idOfAlloc 3, "start", ForwardOrder, [StopAddr], false, none, []⟩
      rfl).2 ShutdownAddr).2⟩

/-- C10: the hook produced by `Copy` agrees with the original on `Name`,
`Order`, `ContinuePast` and `ErrorCombiner` at the moment of the copy,
and its cascade and provider lists hold exactly the original's entries;
only the identifier is fresh, drawn from the bumped counter. -/
theorem C10_copy_preserves_config {ε : Type} (w : World ε) (a : Nat)
    (h : Hook ε) (hh : hookAt w a = some h) :
    hookAt (Copy w a).1 (Copy w a).2 =
      some { h with Id := idOfAlloc (w.hookCounter + 1) } ∧
    (Copy w a).1.hookCounter = w.hookCounter + 1 := by
  refine ⟨hookAt_Copy_new hh, ?_⟩
  rw [(Copy_spec hh).1]

/-- Witness for C10: copying the predefined `Stop` hook yields a hook
with the fresh identifier 4 and `Stop`'s name, order, cascade list,
continue flag and (absent) combiner. -/
theorem C10_copy_preserves_config_witness :
    hookAt (Copy (initWorld Nat) StopAddr).1
        (Copy (initWorld Nat) StopAddr).2 =
      some ⟨idOfAlloc 4, "stop", ReverseOrder, [ShutdownAddr], true, none,
        []⟩ ∧
    (Copy (initWorld Nat) StopAddr).1.hookCounter = 4 :=
  C10_copy_preserves_config (initWorld Nat) StopAddr
    ⟨idOfAlloc 2, "stop", ReverseOrder, [ShutdownAddr], true, none, []⟩ rfl

/-- Well-formed process state: every hook on the heap carries an
identifier handed out by one of the counter increments performed so
far. -/
def WF (w : World ε) : Prop :=
  ∀ h ∈ w.heap, ∃ k ∈ List.range' 1 w.hookCounter, h.Id = idOfAlloc k

theorem toInt32_inj {m n : Nat} (hm : m < 2 ^ 32) (hn : n < 2 ^ 32)
    (h : toInt32 m = toInt32 n) : m = n := by
  unfold toInt32 at h
  rw [Nat.mod_eq_of_lt hm, Nat.mod_eq_of_lt hn] at h
  split_ifs at h <;> omega

theorem toInt32_mod (n : Nat) : toInt32 (n % 2 ^ 32) = toInt32 n := by
  unfold toInt32
  have hmm : n % 2 ^ 32 % 2 ^ 32 = n % 2 ^ 32 := by omega
  rw [hmm]

theorem idOfAlloc_inj {m n : Nat} (hm1 : 1 ≤ m) (hm2 : m ≤ 2 ^ 32)
    (hn1 : 1 ≤ n) (hn2 : n ≤ 2 ^ 32) (h : idOfAlloc m = idOfAlloc n) :
    m = n := by
  unfold idOfAlloc at h
  rw [← toInt32_mod m, ← toInt32_mod n] at h
  have hmn := toInt32_inj (Nat.mod_lt _ (by norm_num))
    (Nat.mod_lt _ (by norm_num)) h
  omega

theorem WF_id_ne_next {w : World ε} (hwf : WF w)
    (hb : w.hookCounter < 2 ^ 32) {h : Hook ε} (hmem : h ∈ w.heap) :
    h.Id ≠ idOfAlloc (w.hookCounter + 1) := by
  intro heq
  rcases hwf h hmem with ⟨k, hk, hid⟩
  rw [List.mem_range'_1] at hk
  have hkc : k = w.hookCounter + 1 :=
    idOfAlloc_inj (by omega) (by omega) (by omega) (by omega)
      (hid.symm.trans heq)
  omega

/-- C6 (amended): `NewHook` returns a hook whose cascade list and
callback list are empty, whose continue-past-error flag is off and which
has no combiner; its identifier is the freshly incremented counter value
and — provided fewer than `2 ^ 32` hooks have been allocated so far — is
distinct from the identifier of every hook already on the heap. -/
theorem C6_newHook_spec {ε : Type} (w : World ε) (nm : String)
    (o : hookOrder) (hwf : WF w) (hb : w.hookCounter < 2 ^ 32) :
    hookAt (NewHook w nm o).1 (NewHook w nm o).2 =
      some ⟨idOfAlloc (w.hookCounter + 1), nm, o, [], false, none, []⟩ ∧
    ∀ h ∈ w.heap, h.Id ≠ idOfAlloc (w.hookCounter + 1) := by
  constructor
  · rw [(NewHook_spec w nm o).1, (NewHook_spec w nm o).2]
    exact List.get?_concat_length _ _
  · exact fun h hmem => WF_id_ne_next hwf hb hmem

/-- Witness for C6: allocating a fourth hook in the initialized process
state yields identifier 4, empty lists, flag off, no combiner, and an
identifier unequal to those of the three predefined hooks. -/
theorem C6_newHook_spec_witness :
    hookAt (NewHook (initWorld Nat) "x" ForwardOrder).1
        (NewHook (initWorld Nat) "x" ForwardOrder).2 =
      some ⟨idOfAlloc 4, "x", ForwardOrder, [], false, none, []⟩ ∧
    ∀ h ∈ (initWorld Nat).heap, h.Id ≠ idOfAlloc 4 :=
  C6_newHook_spec (initWorld Nat) "x" ForwardOrder
    (by unfold WF; decide) (by decide)

theorem hookAt_OnError_ne {w : World ε} {a b : Nat} (e : Option Nat)
    (hab : b ≠ a) : hookAt (OnError w a e).1 b = hookAt w b :=
  hookAt_updateAt_ne _ hab

theorem hookAt_Using_ne {w : World ε} {a b : Nat} (p : Nat)
    (hab : b ≠ a) : hookAt (Using w a p).1 b = hookAt w b :=
  hookAt_updateAt_ne _ hab

/-- C3 (amended): provided fewer than `2 ^ 32` hooks have been allocated
so far, `Copy` yields a hook with an identifier distinct from the
original's; the copy's cascade and callback lists hold exactly the
original's entries (shared, not deep-cloned — the heap grows by exactly
the one copied hook object); and afterwards appending a cascade target
(via `OnError`) or a callback entry (via `Using`) to either of the two
hooks leaves the other hook object, in particular its two lists,
unchanged. -/
theorem C3_copy_isolation {ε : Type} (w : World ε) (a : Nat) (h : Hook ε)
    (hh : hookAt w a = some h) (hwf : WF w)
    (hb : w.hookCounter < 2 ^ 32) :
    (hookAt (Copy w a).1 (Copy w a).2 =
        some { h with Id := idOfAlloc (w.hookCounter + 1) } ∧
      idOfAlloc (w.hookCounter + 1) ≠ h.Id ∧
      (Copy w a).1.heap.length = w.heap.length + 1) ∧
    (∀ e, hookAt (OnError (Copy w a).1 (Copy w a).2 (some e)).1 a =
        some h ∧
      hookAt (Using (Copy w a).1 (Copy w a).2 e).1 a = some h) ∧
    (∀ e, hookAt (OnError (Copy w a).1 a (some e)).1 (Copy w a).2 =
        some { h with Id := idOfAlloc (w.hookCounter + 1) } ∧
      hookAt (Using (Copy w a).1 a e).1 (Copy w a).2 =
        some { h with Id := idOfAlloc (w.hookCounter + 1) }) := by
  have hlt : a < w.heap.length := hookAt_lt_length hh
  have hne : a ≠ (Copy w a).2 := by
    rw [(Copy_spec hh).2]
    omega
  have hold : hookAt (Copy w a).1 a = some h := by
    rw [hookAt_Copy_old hh hlt]
    exact hh
  refine ⟨⟨hookAt_Copy_new hh, ?_, ?_⟩, fun e => ⟨?_, ?_⟩, fun e => ⟨?_, ?_⟩⟩
  · exact fun heq => WF_id_ne_next hwf hb (List.get?_mem hh) heq.symm
  · rw [(Copy_spec hh).1]
    simp
  · rw [hookAt_OnError_ne (some e) hne]
    exact hold
  · rw [hookAt_Using_ne e hne]
    exact hold
  · rw [hookAt_OnError_ne (some e) (Ne.symm hne)]
    exact hookAt_Copy_new hh
  · rw [hookAt_Using_ne e (Ne.symm hne)]
    exact hookAt_Copy_new hh

/-- Witness for C3: copying the predefined `Stop` hook in the
initialized process state gives a hook with identifier 4 (distinct from
`Stop`'s identifier 2) sharing `Stop`'s single cascade entry, and
appends to either hook leave the other unchanged. -/
theorem C3_copy_isolation_witness :
    (hookAt (Copy (initWorld Nat) StopAddr).1
        (Copy (initWorld Nat) StopAddr).2 =
      some ⟨idOfAlloc 4, "stop", ReverseOrder, [ShutdownAddr], true, none,
        []⟩ ∧
      idOfAlloc 4 ≠ idOfAlloc 2 ∧
      (Copy (initWorld Nat) StopAddr).1.heap.length = 4) ∧
    hookAt (OnError (Copy (initWorld Nat) StopAddr).1
        (Copy (initWorld Nat) StopAddr).2 (some StartAddr)).1 StopAddr =
      some ⟨idOfAlloc 2, "stop", ReverseOrder, [ShutdownAddr], true, none,
        []⟩ ∧
    hookAt (Using (Copy (initWorld Nat) StopAddr).1 StopAddr 7).1
        (Copy (initWorld Nat) StopAddr).2 =
      some ⟨idOfAlloc 4, "stop", ReverseOrder, [ShutdownAddr], true, none,
        []⟩ := by
  have hmain := C3_copy_isolation (initWorld Nat) StopAddr
    ⟨idOfAlloc 2, "stop", ReverseOrder, [ShutdownAddr], true, none, []⟩
    rfl (by unfold WF; decide) (by decide)
  exact ⟨⟨hmain.1.1, fun heq => hmain.1.2.1 heq, hmain.1.2.2⟩,
    (hmain.2.1 StartAddr).1, (hmain.2.2 7).2⟩

theorem idOfAlloc_small (k : Nat) (hk : k < 2 ^ 31) :
    idOfAlloc k = (k : Int) := by
  unfold idOfAlloc toInt32
  rw [Nat.mod_eq_of_lt (by omega), if_pos hk]

theorem hookAt_NewHook_old (w : World ε) (nm : String) (o : hookOrder)
    {b : Nat} (hb : b < w.heap.length) :
    hookAt (NewHook w nm o).1 b = hookAt w b := by
  rw [(NewHook_spec w nm o).1]
  exact List.get?_append hb

theorem hookAt_updateAt_map_Id (w : World ε) (a : Nat)
    (f : Hook ε → Hook ε) (hf : ∀ h, (f h).Id = h.Id) (i : Nat) :
    (hookAt (updateAt w a f) i).map Hook.Id = (hookAt w i).map Hook.Id := by
  unfold updateAt
  cases hw : w.heap.get? a with
  | none => rfl
  | some h =>
    rcases eq_or_ne i a with hia | hia
    · subst hia
      show ((w.heap.set i (f h)).get? i).map Hook.Id =
        (w.heap.get? i).map Hook.Id
      rw [List.get?_set_eq_of_lt _ (hookAt_lt_length hw), hw]
      simp [hf]
    · show ((w.heap.set a (f h)).get? i).map Hook.Id =
        (w.heap.get? i).map Hook.Id
      rw [List.get?_set_ne _ _ fun hai => hia hai.symm]

/-- Process state after `n` successive `NewHook` allocations starting
from the empty state. -/
def worldAfter : Nat → World Nat
  | 0 => emptyWorld Nat
  | n + 1 => (NewHook (worldAfter n) "h" ForwardOrder).1

theorem worldAfter_counter (n : Nat) : (worldAfter n).hookCounter = n := by
  induction n with
  | zero => rfl
  | succ n ih => simp [worldAfter, NewHook, ih]

theorem worldAfter_length (n : Nat) : (worldAfter n).heap.length = n := by
  induction n with
  | zero => rfl
  | succ n ih => simp [worldAfter, NewHook, ih]

/-- The first hook allocated in `worldAfter`. -/
def hookOne : Hook Nat :=
  ⟨idOfAlloc 1, "h", ForwardOrder, [], false, none, []⟩

theorem worldAfter_head (n : Nat) (hn : 1 ≤ n) :
    hookAt (worldAfter n) 0 = some hookOne := by
  induction n with
  | zero => omega
  | succ n ih =>
    rcases Nat.eq_zero_or_pos n with h0 | h0
    · subst h0
      rfl
    · have hstep : hookAt (NewHook (worldAfter n) "h" ForwardOrder).1 0 =
          hookAt (worldAfter n) 0 :=
        hookAt_NewHook_old _ _ _ (by rw [worldAfter_length]; omega)
      exact hstep.trans (ih h0)

theorem worldAfter_last (n : Nat) :
    hookAt (worldAfter (n + 1)) n =
      some ⟨idOfAlloc (n + 1), "h", ForwardOrder, [], false, none, []⟩ := by
  have hx : hookAt (NewHook (worldAfter n) "h" ForwardOrder).1
      ((worldAfter n).heap.length) =
      some ⟨idOfAlloc ((worldAfter n).hookCounter + 1), "h", ForwardOrder,
        [], false, none, []⟩ := by
    rw [(NewHook_spec _ _ _).1]
    exact List.get?_concat_length _ _
  rw [worldAfter_counter, worldAfter_length] at hx
  exact hx

/-- C3 counterexample: after exactly `2 ^ 32` allocations the counter
has wrapped, and `Copy` of the first hook produces a copy whose
identifier equals the original's identifier, not a distinct one. -/
theorem C3_copy_id_collision :
    (hookAt (Copy (worldAfter (2 ^ 32)) 0).1
        (Copy (worldAfter (2 ^ 32)) 0).2).map Hook.Id =
      (hookAt (worldAfter (2 ^ 32)) 0).map Hook.Id := by
  have hh : hookAt (worldAfter (2 ^ 32)) 0 = some hookOne :=
    worldAfter_head _ (by norm_num)
  rw [hookAt_Copy_new hh, hh, worldAfter_counter]
  have hid : idOfAlloc 4294967297 = idOfAlloc 1 := by decide
  norm_num [hid, hookOne]

/-- C6 counterexample: the hook allocated by `NewHook` after `2 ^ 32`
prior allocations carries identifier 1, equal to the identifier of the
first hook ever allocated, so the fresh identifier is not globally
unique. -/
theorem C6_newHook_id_collision :
    (hookAt (NewHook (worldAfter (2 ^ 32)) "x" ForwardOrder).1
        (NewHook (worldAfter (2 ^ 32)) "x" ForwardOrder).2).map Hook.Id =
      (hookAt (worldAfter (2 ^ 32)) 0).map Hook.Id := by
  have hh : hookAt (worldAfter (2 ^ 32)) 0 = some hookOne :=
    worldAfter_head _ (by norm_num)
  have hnew : hookAt (NewHook (worldAfter (2 ^ 32)) "x" ForwardOrder).1
      (NewHook (worldAfter (2 ^ 32)) "x" ForwardOrder).2 =
      some ⟨idOfAlloc ((worldAfter (2 ^ 32)).hookCounter + 1), "x",
        ForwardOrder, [], false, none, []⟩ := by
    rw [(NewHook_spec _ _ _).1, (NewHook_spec _ _ _).2]
    exact List.get?_concat_length _ _
  rw [hnew, hh, worldAfter_counter]
  have hid : idOfAlloc 4294967297 = idOfAlloc 1 := by decide
  norm_num [hid, hookOne]

/-- C8 counterexample: the hook produced by the `2 ^ 31`-th allocation
carries identifier `-(2 ^ 31)`, smaller than the identifier
`2 ^ 31 - 1` of the hook produced immediately before it, so identifiers
are not assigned monotonically increasing. -/
theorem C8_id_not_monotone :
    (hookAt (worldAfter 2147483648) 2147483647).map Hook.Id =
      some (-2147483648) ∧
    (hookAt (worldAfter 2147483647) 2147483646).map Hook.Id =
      some 2147483647 ∧
    (-2147483648 : Int) < 2147483647 := by
  have h1 := worldAfter_last 2147483647
  have h2 := worldAfter_last 2147483646
  norm_num at h1 h2
  have hv1 : idOfAlloc 2147483648 = -2147483648 := by decide
  have hv2 : idOfAlloc 2147483647 = 2147483647 := by decide
  refine ⟨?_, ?_, by norm_num⟩
  · rw [h1]
    simp [hv1]
  · rw [h2]
    simp [hv2]
/-- C8 (amended): identifiers come from the shared counter — `NewHook`
and `Copy` each bump it once and stamp the hook they produce with the
new count's identifier — so identifiers are strictly increasing in
order of production, hence pairwise distinct, as long as fewer than
`2 ^ 31` hooks are produced (and remain pairwise distinct up to
`2 ^ 32` productions); and no operation changes the identifier of any
hook already on the heap. -/
theorem C8_identifier_discipline (ε : Type) :
    (∀ m n : Nat, 1 ≤ m → m < n → n < 2 ^ 31 →
      idOfAlloc m < idOfAlloc n) ∧
    (∀ m n : Nat, 1 ≤ m → m < n → n ≤ 2 ^ 32 →
      idOfAlloc m ≠ idOfAlloc n) ∧
    (∀ (w : World ε) nm o,
      (NewHook w nm o).1.hookCounter = w.hookCounter + 1 ∧
      (hookAt (NewHook w nm o).1 (NewHook w nm o).2).map Hook.Id =
        some (idOfAlloc (w.hookCounter + 1))) ∧
    (∀ (w : World ε) a h, hookAt w a = some h →
      (Copy w a).1.hookCounter = w.hookCounter + 1 ∧
      (hookAt (Copy w a).1 (Copy w a).2).map Hook.Id =
        some (idOfAlloc (w.hookCounter + 1))) ∧
    (∀ (w : World ε) a e i,
      (hookAt (OnError w a e).1 i).map Hook.Id =
        (hookAt w i).map Hook.Id) ∧
    (∀ (w : World ε) a f i,
      (hookAt (SetErrorCombiner w a f).1 i).map Hook.Id =
        (hookAt w i).map Hook.Id) ∧
    (∀ (w : World ε) a b i,
      (hookAt (ContinuePastError w a b).1 i).map Hook.Id =
        (hookAt w i).map Hook.Id) ∧
    (∀ (w : World ε) a p i,
      (hookAt (Using w a p).1 i).map Hook.Id =
        (hookAt w i).map Hook.Id) ∧
    (∀ (w : World ε) nm o i, i < w.heap.length →
      hookAt (NewHook w nm o).1 i = hookAt w i) ∧
    (∀ (w : World ε) a i, i < w.heap.length →
      hookAt (Copy w a).1 i = hookAt w i) := by
  refine ⟨fun m n hm hmn hn => ?_, fun m n hm hmn hn heq => ?_,
    fun w nm o => ⟨rfl, ?_⟩, fun w a h hh => ⟨?_, ?_⟩,
    fun w a e i => hookAt_updateAt_map_Id w a
      (fun h => match e with
        | none => { h with InvokeOnError := [] }
        | some t => { h with InvokeOnError := h.InvokeOnError ++ [t] })
      (by intro h; cases e <;> rfl) i,
    fun w a f i => hookAt_updateAt_map_Id w a
      (fun h => { h with ErrorCombiner := f }) (fun h => rfl) i,
    fun w a b i => hookAt_updateAt_map_Id w a
      (fun h => { h with ContinuePast := b }) (fun h => rfl) i,
    fun w a p i => hookAt_updateAt_map_Id w a
      (fun h => { h with Providers := h.Providers ++ [p] })
      (fun h => rfl) i,
    fun w nm o i hi => hookAt_NewHook_old w nm o hi,
    fun w a i hi => ?_⟩
  · rw [idOfAlloc_small m (by omega), idOfAlloc_small n hn]
    exact_mod_cast hmn
  · have := idOfAlloc_inj (by omega) (by omega) (by omega) hn heq
    omega
  · have hx : hookAt (NewHook w nm o).1 (NewHook w nm o).2 =
        some ⟨idOfAlloc (w.hookCounter + 1), nm, o, [], false, none, []⟩ := by
      rw [(NewHook_spec w nm o).1, (NewHook_spec w nm o).2]
      exact List.get?_concat_length _ _
    rw [hx]
    rfl
  · rw [(Copy_spec hh).1]
  · rw [hookAt_Copy_new hh]
    rfl
  · cases hw : hookAt w a with
    | none =>
      have hw' : w.heap.get? a = none := hw
      unfold Copy
      rw [hw']
    | some h => exact hookAt_Copy_old hw hi

/-- Witness for C8 at concrete inputs: identifier 1 precedes and
differs from identifier 2; copying `Stop` in the initialized state
bumps the counter to 4 and stamps the copy with identifier 4; and
allocation and copying leave the hooks already on the heap, here the
predefined `Shutdown` and `Start`, untouched. -/
theorem C8_identifier_discipline_witness :
    idOfAlloc 1 < idOfAlloc 2 ∧
    idOfAlloc 1 ≠ idOfAlloc 2 ∧
    (hookAt (Copy (initWorld Nat) StopAddr).1
        (Copy (initWorld Nat) StopAddr).2).map Hook.Id =
      some (idOfAlloc 4) ∧
    hookAt (NewHook (initWorld Nat) "x" ForwardOrder).1 0 =
      hookAt (initWorld Nat) 0 ∧
    hookAt (Copy (initWorld Nat) StopAddr).1 2 = hookAt (initWorld Nat) 2 := by
  have h := C8_identifier_discipline Nat
  exact ⟨h.1 1 2 (by decide) (by decide) (by decide),
    h.2.1 1 2 (by decide) (by decide) (by decide),
    (h.2.2.2.1 (initWorld Nat) StopAddr
      ⟨idOfAlloc 2, "stop", ReverseOrder, [ShutdownAddr], true, none, []⟩
      rfl).2,
    h.2.2.2.2.2.2.2.2.1 (initWorld Nat) "x" ForwardOrder 0 (by decide),
    h.2.2.2.2.2.2.2.2.2 (initWorld Nat) StopAddr 2 (by decide)⟩

end Nserve
